import Mathlib

/-!
Formal model of the move-clippy ecosystem benchmark and triage tooling:
`scripts/ecosystem_benchmark.py`, `scripts/compare_baselines.py`,
`tests/ecosystem_validation/calculate_metrics.py` and
`tests/ecosystem_validation/scripts/analyze_fp.py`.

Modelling conventions:
* Python strings are modelled as lists of characters; the `str.split`,
  `str.strip` and substring-containment operations the scripts use are
  reimplemented below with Python's exact semantics.
* Python dicts (including `defaultdict`) are modelled as association
  lists in insertion order, with an insert-or-update primitive `upsert`.
* Python float division is modelled exactly with rationals.
* Filesystem and subprocess effects (directory existence, the analyzer's
  output, timeouts, raised exceptions) are modelled as explicit inputs.
-/

namespace MoveClippy

/-- Split a character list at the first occurrence of the nonempty needle
`sep`: `some (before, after)` when `sep` occurs, `none` otherwise.  This is
the primitive underlying Python's `sep in s` and `s.split(sep)`. -/
def splitFirst (sep : List Char) : List Char → Option (List Char × List Char)
  | [] => none
  | c :: rest =>
    if sep.isPrefixOf (c :: rest) then some ([], (c :: rest).drop sep.length)
    else
      match splitFirst sep rest with
      | some (pre, post) => some (c :: pre, post)
      | none => none

/-- Python `s.split(sep)[0]`: everything before the first occurrence of
`sep`, or all of `s` when `sep` does not occur. -/
def beforeFirst (sep l : List Char) : List Char :=
  match splitFirst sep l with
  | some (pre, _) => pre
  | none => l

/-- Python `s.split(sep)[1]` (defined when `sep` occurs in `s`): the piece
between the first occurrence of `sep` and the following occurrence (or the
end of the string). -/
def secondPiece (sep l : List Char) : Option (List Char) :=
  (splitFirst sep l).map (fun p => beforeFirst sep p.2)

/-- Python `s.split('\n')`: pieces between newlines, empty pieces kept,
`[""]` for the empty string. -/
def splitLines : List Char → List (List Char)
  | [] => [[]]
  | c :: rest =>
    if c = '\n' then [] :: splitLines rest
    else
      match splitLines rest with
      | [] => [[c]]
      | p :: ps => (c :: p) :: ps

/-- The ASCII whitespace characters stripped by Python's `str.strip()`. -/
def pyIsSpace (c : Char) : Bool :=
  c = ' ' || c = '\t' || c = '\n' || c = '\r' || c = '\x0b' || c = '\x0c'

/-- Python `s.strip()`. -/
def pyStrip (l : List Char) : List Char :=
  ((l.dropWhile pyIsSpace).reverse.dropWhile pyIsSpace).reverse

section AssocMap

variable {β : Type}

/-- First-match lookup in an association list (Python dicts never hold a
key twice, so first-match agrees with dict lookup). -/
def assocFind (m : List (String × β)) (k : String) : Option β :=
  match m with
  | [] => none
  | (k₀, v) :: rest => if k₀ = k then some v else assocFind rest k

/-- Dict lookup with a default, Python `m.get(k, d)`. -/
def lookupD (m : List (String × β)) (k : String) (d : β) : β :=
  (assocFind m k).getD d

/-- Python `m[k] = upd(m.get(k, init))` on a dict in insertion order: an
existing entry is updated in place, a new key is appended.  With `upd`
constant this is plain dict assignment; with `init`/`upd` an identity and
successor (or list append) it is a `defaultdict` update. -/
def upsert (init : β) (upd : β → β) (m : List (String × β)) (k : String) :
    List (String × β) :=
  match m with
  | [] => [(k, upd init)]
  | (k₀, v) :: rest =>
    if k₀ = k then (k₀, upd v) :: rest else (k₀, v) :: upsert init upd rest k

/-- The keys of an association list, in insertion order. -/
def keysOf (m : List (String × β)) : List String := m.map Prod.fst

/-- Sum of a numeric weight of every value of an association list. -/
def valsSum (w : β → Nat) (m : List (String × β)) : Nat :=
  (m.map (fun p => w p.2)).sum

theorem assocFind_upsert (init : β) (upd : β → β) (m : List (String × β))
    (k k₂ : String) :
    assocFind (upsert init upd m k) k₂ =
      if k = k₂ then some (upd (lookupD m k init)) else assocFind m k₂ := by
  induction m with
  | nil =>
    by_cases h : k = k₂ <;> simp [upsert, assocFind, lookupD, h]
  | cons p rest ih =>
    obtain ⟨k₀, v⟩ := p
    by_cases h₀ : k₀ = k
    · subst h₀
      by_cases h : k₀ = k₂ <;> simp [upsert, assocFind, lookupD, h]
    · by_cases h : k₀ = k₂
      · subst h
        have hk : ¬ k = k₀ := fun hh => h₀ hh.symm
        simp [upsert, assocFind, lookupD, h₀, hk]
      · by_cases hk : k = k₂
        · subst hk
          simp [upsert, assocFind, lookupD, h₀, h, ih]
        · simp [upsert, assocFind, lookupD, h₀, h, hk, ih]

theorem lookupD_upsert (init : β) (upd : β → β) (m : List (String × β))
    (k k₂ : String) (d : β) :
    lookupD (upsert init upd m k) k₂ d =
      if k = k₂ then upd (lookupD m k init) else lookupD m k₂ d := by
  unfold lookupD
  rw [assocFind_upsert]
  by_cases h : k = k₂ <;> simp [h, lookupD]

theorem keysOf_upsert (init : β) (upd : β → β) (m : List (String × β))
    (k : String) :
    keysOf (upsert init upd m k) =
      if k ∈ keysOf m then keysOf m else keysOf m ++ [k] := by
  induction m with
  | nil => simp [upsert, keysOf]
  | cons p rest ih =>
    obtain ⟨k₀, v⟩ := p
    by_cases h₀ : k₀ = k
    · subst h₀
      simp [upsert, keysOf]
    · have hne : k ≠ k₀ := fun hh => h₀ hh.symm
      have hm : (k ∈ keysOf ((k₀, v) :: rest)) ↔ k ∈ keysOf rest := by
        simp [keysOf, hne]
      have hstep : upsert init upd ((k₀, v) :: rest) k =
          (k₀, v) :: upsert init upd rest k := by
        simp [upsert, h₀]
      rw [hstep]
      have hkeys : keysOf ((k₀, v) :: upsert init upd rest k) =
          k₀ :: keysOf (upsert init upd rest k) := rfl
      rw [hkeys, ih]
      by_cases h : k ∈ keysOf rest
      · rw [if_pos h, if_pos (hm.mpr h)]
        rfl
      · rw [if_neg h, if_neg (fun hh => h (hm.mp hh))]
        rfl

theorem nodupKeys_upsert (init : β) (upd : β → β) (m : List (String × β))
    (k : String) (h : (keysOf m).Nodup) :
    (keysOf (upsert init upd m k)).Nodup := by
  rw [keysOf_upsert]
  by_cases hm : k ∈ keysOf m
  · simpa [hm]
  · simp only [if_neg hm]
    simpa [List.nodup_append] using ⟨h, hm⟩

theorem assocFind_eq_of_mem (m : List (String × β)) (k : String) (v : β)
    (hnd : (keysOf m).Nodup) (hmem : (k, v) ∈ m) :
    assocFind m k = some v := by
  induction m with
  | nil => cases hmem
  | cons p rest ih =>
    obtain ⟨k₀, v₀⟩ := p
    rcases List.mem_cons.mp hmem with heq | htail
    · cases heq
      simp [assocFind]
    · have hk₀ : k₀ ≠ k := by
        intro hh
        subst hh
        have : k₀ ∈ keysOf rest := List.mem_map.mpr ⟨(k₀, v), htail, rfl⟩
        exact (List.nodup_cons.mp hnd).1 this
      simp only [assocFind, if_neg hk₀]
      exact ih (List.nodup_cons.mp hnd).2 htail

theorem assocFind_eq_none_of_not_mem (m : List (String × β)) (k : String)
    (h : k ∉ keysOf m) : assocFind m k = none := by
  induction m with
  | nil => rfl
  | cons p rest ih =>
    obtain ⟨k₀, v₀⟩ := p
    have h₀ : k₀ ≠ k := by
      intro hh
      exact h (by simp [keysOf, hh])
    simp only [assocFind, if_neg h₀]
    exact ih (fun hk => h (by simp [keysOf] at hk ⊢; exact Or.inr hk))

theorem valsSum_upsert (w : β → Nat) (init : β) (upd : β → β)
    (m : List (String × β)) (k : String) (h0 : w init = 0) :
    valsSum w (upsert init upd m k) + w (lookupD m k init) =
      valsSum w m + w (upd (lookupD m k init)) := by
  induction m with
  | nil => simp [upsert, valsSum, lookupD, assocFind, h0]
  | cons p rest ih =>
    obtain ⟨k₀, v⟩ := p
    simp only [upsert]
    by_cases h₀ : k₀ = k
    · subst h₀
      simp [valsSum, lookupD, assocFind]
      ring
    · have hne : ¬ k₀ = k := h₀
      simp only [if_neg hne, valsSum, List.map_cons, List.sum_cons, lookupD,
        assocFind, if_neg hne]
      have := ih
      simp only [valsSum, lookupD] at this
      omega

end AssocMap

namespace Benchmark

/-! Model of `scripts/ecosystem_benchmark.py`.  Wall-clock fields
(`duration_seconds`, `timestamp`) and the subprocess-derived `version`
string carry no findings data and are left out of the model; the
directory scan of `count_move_files` and the analyzer subprocess are
modelled as explicit inputs (`RepoEnv`). -/

/-- The literal diagnostic marker `warning:`. -/
def warningMarker : List Char := "warning:".toList

/-- Python `'warning:' in line`. -/
def containsWarning (line : List Char) : Bool :=
  (splitFirst warningMarker line).isSome

/-- The `try` block of the per-line parse:
`after_warning = line.split('warning:')[1].strip()` followed by
`lint_name = after_warning.split(':')[0].strip()`.  `none` models the
`except (IndexError, ValueError)` path (the `[1]` index failing). -/
def tryParseLintName (line : List Char) : Option String :=
  (secondPiece warningMarker line).map
    (fun afterWarning =>
      (pyStrip (beforeFirst [':'] (pyStrip afterWarning))).asString)

/-- Accumulator of the output-parsing loop: `total` and the
`defaultdict(int)` of per-rule counts. -/
structure ParseState where
  total : Nat
  counts : List (String × Nat)
deriving DecidableEq

/-- One iteration of `for line in output.split('\n')`: a line containing
`warning:` increments `total` and one bucket of `lint_counts` — the
parsed rule name, or `"unknown"` when the parse raises. -/
def processLine (st : ParseState) (line : List Char) : ParseState :=
  if containsWarning line then
    { total := st.total + 1,
      counts :=
        upsert 0 (· + 1) st.counts ((tryParseLintName line).getD "unknown") }
  else st

/-- The whole parsing loop over `output = result.stdout + result.stderr`. -/
def parseOutput (output : List Char) : ParseState :=
  (splitLines output).foldl processLine ⟨0, []⟩

/-- The `RepoResult` dataclass (minus the wall-clock duration field). -/
structure RepoResult where
  name : String
  total_findings : Nat
  move_files : Nat
  lint_breakdown : List (String × Nat)
  error : Option String
deriving DecidableEq

/-- Outcome of the `subprocess.run` call on one repo: normal completion
with captured streams, `subprocess.TimeoutExpired`, or any other raised
exception with its text. -/
inductive AnalyzerOutcome where
  | completed (stdout stderr : String)
  | timeout
  | failure (message : String)
deriving DecidableEq

/-- The filesystem/subprocess environment one `run_lint_on_repo` call
observes: `os.path.isdir(repo_path)`, the `count_move_files` result, and
the analyzer invocation outcome. -/
structure RepoEnv where
  isDir : Bool
  moveFiles : Nat
  outcome : AnalyzerOutcome
deriving DecidableEq

/-- `run_lint_on_repo` on the work item `(repo_name, repo_path,
experimental)`.  The `experimental` flag only selects an analyzer
command-line flag and does not affect result handling. -/
def run_lint_on_repo (repoName repoPath : String) (experimental : Bool)
    (env : RepoEnv) : RepoResult :=
  if env.isDir = false then
    { name := repoName, total_findings := 0, move_files := 0,
      lint_breakdown := [],
      error := some ("Directory not found: " ++ repoPath) }
  else if env.moveFiles = 0 then
    { name := repoName, total_findings := 0, move_files := 0,
      lint_breakdown := [], error := some "No .move files found" }
  else
    match env.outcome with
    | .completed stdout stderr =>
      let st := parseOutput (stdout ++ stderr).toList
      { name := repoName, total_findings := st.total,
        move_files := env.moveFiles, lint_breakdown := st.counts,
        error := none }
    | .timeout =>
      { name := repoName, total_findings := 0,
        move_files := env.moveFiles, lint_breakdown := [],
        error := some "Timeout after 180s" }
    | .failure e =>
      { name := repoName, total_findings := 0,
        move_files := env.moveFiles, lint_breakdown := [],
        error := some e }

/-- One entry of the aggregated `by_lint` dict.  The `tier`/`category`
keys are only written by the metadata enrichment step, so they are
`Option`s: `none` models the key being absent from the dict. -/
structure LintAgg where
  count : Nat
  repos : List String
  tier : Option String
  category : Option String
deriving DecidableEq

/-- The `defaultdict(lambda: {"count": 0, "repos": []})` default. -/
def emptyAgg : LintAgg := ⟨0, [], none, none⟩

/-- `by_lint[lint_name]["count"] += count; by_lint[lint_name]["repos"].append(...)`. -/
def addLint (m : List (String × LintAgg)) (lintName : String) (c : Nat)
    (repo : String) : List (String × LintAgg) :=
  upsert emptyAgg
    (fun a => { a with count := a.count + c, repos := a.repos ++ [repo] })
    m lintName

/-- The `by_lint` aggregation loop over all repo results. -/
def buildByLint (results : List RepoResult) : List (String × LintAgg) :=
  results.foldl
    (fun m r =>
      r.lint_breakdown.foldl (fun acc p => addLint acc p.1 p.2 r.name) m)
    []

/-- One `name → {category, tier}` record of the `list-rules` metadata. -/
structure MetaEntry where
  category : String
  tier : String
deriving DecidableEq

/-- The tier-info loop: `if lint_name in lint_metadata:` copy the tier and
category into the `by_lint` entry; rules absent from the metadata are left
untouched (their entry keeps no tier/category keys). -/
def enrich (md : List (String × MetaEntry)) (m : List (String × LintAgg)) :
    List (String × LintAgg) :=
  m.map (fun p =>
    match assocFind md p.1 with
    | some e =>
      (p.1, { p.2 with tier := some e.tier, category := some e.category })
    | none => p)

/-- `data.get("tier", "unknown")` on a `by_lint` entry. -/
def tierKey (a : LintAgg) : String := a.tier.getD "unknown"

/-- `data.get("category", "unknown")` on a `by_lint` entry. -/
def categoryKey (a : LintAgg) : String := a.category.getD "unknown"

/-- The `by_tier` rollup: `by_tier[tier] += data["count"]`. -/
def buildByTier (m : List (String × LintAgg)) : List (String × Nat) :=
  m.foldl (fun acc p => upsert 0 (· + p.2.count) acc (tierKey p.2)) []

/-- The `by_category` rollup. -/
def buildByCategory (m : List (String × LintAgg)) : List (String × Nat) :=
  m.foldl (fun acc p => upsert 0 (· + p.2.count) acc (categoryKey p.2)) []

/-- One value of the `repos` dict (minus the wall-clock duration). -/
structure RepoSummary where
  findings : Nat
  move_files : Nat
  error : Option String
deriving DecidableEq

/-- `{r.name: {...} for r in results}` — a dict comprehension, so a later
result with the same name overwrites the earlier entry. -/
def buildRepos (results : List RepoResult) : List (String × RepoSummary) :=
  results.foldl
    (fun m r =>
      upsert ⟨0, 0, none⟩
        (fun _ => ⟨r.total_findings, r.move_files, r.error⟩) m r.name)
    []

/-- The `BenchmarkResult` dataclass (minus version/timestamp/duration). -/
structure BenchmarkResult where
  total_repos : Nat
  repos_with_findings : Nat
  total_findings : Nat
  by_lint : List (String × LintAgg)
  by_tier : List (String × Nat)
  by_category : List (String × Nat)
  repos : List (String × RepoSummary)
deriving DecidableEq

/-- The aggregation phase of `run_benchmark` (lines 254–302): fold the
collected `RepoResult`s — one per submitted repo, in completion order —
and the `list-rules` metadata into one snapshot. -/
def run_benchmark (md : List (String × MetaEntry))
    (results : List RepoResult) : BenchmarkResult :=
  let byLint := enrich md (buildByLint results)
  { total_repos := results.length,
    repos_with_findings := (results.filter (fun r => r.total_findings > 0)).length,
    total_findings := (results.map (fun r => r.total_findings)).sum,
    by_lint := byLint,
    by_tier := buildByTier byLint,
    by_category := buildByCategory byLint,
    repos := buildRepos results }

end Benchmark

namespace Compare

/-! Model of `scripts/compare_baselines.py`.  The script prints; the
definitions below compute exactly the data each printed section is built
from.  Python iterates `set(...) | set(...)` in an unspecified,
hash-dependent order before the stable sort by delta, so the set
enumeration order is an explicit parameter (`order`) here. -/

open Benchmark

/-- `lints.get(lint, {}).get('count', 0)`. -/
def lintCountOf (m : List (String × LintAgg)) (k : String) : Nat :=
  match assocFind m k with
  | some a => a.count
  | none => 0

/-- `repos.get(repo, {}).get('findings', 0)`. -/
def repoFindingsOf (m : List (String × RepoSummary)) (k : String) : Nat :=
  match assocFind m k with
  | some s => s.findings
  | none => 0

/-- The three overall-stats rows: metric name and `new - old` delta. -/
def overallDeltas (old new : BenchmarkResult) : List (String × Int) :=
  [("Total repos", (new.total_repos : Int) - (old.total_repos : Int)),
   ("Repos with findings",
     (new.repos_with_findings : Int) - (old.repos_with_findings : Int)),
   ("Total findings",
     (new.total_findings : Int) - (old.total_findings : Int))]

/-- The by-tier rows over an enumeration of the tier-key union
(the script additionally sorts the union by name before printing). -/
def tierDeltas (tierOrder : List String) (old new : BenchmarkResult) :
    List (String × Int) :=
  tierOrder.map (fun t =>
    (t, ((lookupD new.by_tier t 0 : Nat) : Int) -
      ((lookupD old.by_tier t 0 : Nat) : Int)))

/-- One row of the lint-changes section. -/
structure LintChange where
  lint : String
  oldCount : Nat
  newCount : Nat
  delta : Int
deriving DecidableEq

/-- The loop body building `changes` for one rule of the key union: the
row `(lint, old_count, new_count, delta)` when the delta is non-zero,
nothing otherwise. -/
def lintChangeAt (old new : BenchmarkResult) (k : String) :
    Option LintChange :=
  if ((lintCountOf new.by_lint k : Nat) : Int) -
      ((lintCountOf old.by_lint k : Nat) : Int) ≠ 0 then
    some ⟨k, lintCountOf old.by_lint k, lintCountOf new.by_lint k,
      ((lintCountOf new.by_lint k : Nat) : Int) -
        ((lintCountOf old.by_lint k : Nat) : Int)⟩
  else none

/-- The `changes` list: for each rule of the key union (iterated in the
set-enumeration order `order`), keep the row only when its delta is
non-zero. -/
def lintChanges (order : List String) (old new : BenchmarkResult) :
    List LintChange :=
  order.filterMap (lintChangeAt old new)

/-- The sort key `-abs(x[3])`, as a relation: `a` sorts no later than `b`
when `|a.delta| ≥ |b.delta|`. -/
def moreChanged (a b : LintChange) : Prop :=
  b.delta.natAbs ≤ a.delta.natAbs

instance : DecidableRel moreChanged := fun a b =>
  Nat.decLe b.delta.natAbs a.delta.natAbs

instance : IsTotal LintChange moreChanged :=
  ⟨fun a b => Nat.le_total b.delta.natAbs a.delta.natAbs⟩

instance : IsTrans LintChange moreChanged :=
  ⟨fun _ _ _ h₁ h₂ => Nat.le_trans h₂ h₁⟩

/-- `changes.sort(key=lambda x: -abs(x[3]))` — a stable sort by
descending absolute delta (Python's stable sort and the stable insertion
sort agree on every total preorder). -/
def sortedLintChanges (order : List String) (old new : BenchmarkResult) :
    List LintChange :=
  (lintChanges order old new).insertionSort moreChanged

/-- The rows actually printed: `changes[:20]`. -/
def reportedLintChanges (order : List String) (old new : BenchmarkResult) :
    List LintChange :=
  (sortedLintChanges order old new).take 20

/-- The `... and N more lints with changes` count, `len(changes) - 20`
(zero when nothing is omitted). -/
def omittedLintChanges (order : List String) (old new : BenchmarkResult) :
    Nat :=
  (lintChanges order old new).length - 20

/-- `set(new_lints.keys()) - set(old_lints.keys())` (the script renders
this set sorted by name; same members). -/
def newLints (old new : BenchmarkResult) : List String :=
  (keysOf new.by_lint).filter
    (fun k => !(keysOf old.by_lint).contains k)

/-- `set(old_lints.keys()) - set(new_lints.keys())`. -/
def removedLints (old new : BenchmarkResult) : List String :=
  (keysOf old.by_lint).filter
    (fun k => !(keysOf new.by_lint).contains k)

/-- One row of the repo-changes section. -/
structure RepoChange where
  repo : String
  oldCount : Nat
  newCount : Nat
  delta : Int
deriving DecidableEq

/-- The loop body building `repo_changes` for one repo of the key union. -/
def repoChangeAt (old new : BenchmarkResult) (k : String) :
    Option RepoChange :=
  if ((repoFindingsOf new.repos k : Nat) : Int) -
      ((repoFindingsOf old.repos k : Nat) : Int) ≠ 0 then
    some ⟨k, repoFindingsOf old.repos k, repoFindingsOf new.repos k,
      ((repoFindingsOf new.repos k : Nat) : Int) -
        ((repoFindingsOf old.repos k : Nat) : Int)⟩
  else none

/-- The `repo_changes` list over an enumeration of the repo-key union. -/
def repoChanges (order : List String) (old new : BenchmarkResult) :
    List RepoChange :=
  order.filterMap (repoChangeAt old new)

/-- The summary verdict, keyed on `new['total_findings'] - old['total_findings']`. -/
def verdict (old new : BenchmarkResult) : String :=
  let totalDelta : Int :=
    (new.total_findings : Int) - (old.total_findings : Int)
  if 0 < totalDelta then "REGRESSION"
  else if totalDelta < 0 then "IMPROVEMENT"
  else "NO CHANGE"

/-- The canonical enumeration of the lint-key union (one possible
iteration order of `set(old) | set(new)`). -/
def unionLintKeys (old new : BenchmarkResult) : List String :=
  keysOf old.by_lint ++
    (keysOf new.by_lint).filter (fun k => !(keysOf old.by_lint).contains k)

end Compare

namespace Metrics

/-! Model of `tests/ecosystem_validation/calculate_metrics.py`. -/

/-- One triage finding of the list-of-findings dataset shape.  The
classification is the raw triage string (`"TP"`, `"FP"`, `"INFO"`,
`"SKIP"`). -/
structure Finding where
  lint : String
  repo : String
  file : String
  line : Nat
  severity : Option String
  message : String
  rationale : String
  classification : String
deriving DecidableEq

/-- The `defaultdict(list)` grouping `by_lint[finding['lint']].append(finding)`. -/
def groupByLint (fs : List Finding) : List (String × List Finding) :=
  fs.foldl (fun m f => upsert [] (fun l => l ++ [f]) m f.lint) []

/-- The per-lint metrics record.  `fp_rate` and `precision` are Python
binary64 floats; the record stores their values as the rationals they
denote (every binary64 value is a rational). -/
structure LintMetrics where
  total : Nat
  tp : Nat
  fp : Nat
  info : Nat
  skip : Nat
  fp_rate : Rat
  precision : Rat
deriving DecidableEq

/-- The per-lint body of `calculate_metrics` in EXACT arithmetic:
classification counts, `fp_rate = fp/(tp+fp)*100` and
`precision = tp/(tp+fp)*100`, both `0.0` when no finding is classified
TP or FP.  This is the exact-rational idealization of the program's
binary64 float computation; `lintMetricsOf64` below computes the same
fields under IEEE binary64 rounding, and the two can differ by one unit
in the last place. -/
def lintMetricsOf (findings : List Finding) : LintMetrics :=
  let tp := findings.countP (fun f => f.classification == "TP")
  let fp := findings.countP (fun f => f.classification == "FP")
  let info := findings.countP (fun f => f.classification == "INFO")
  let skipCount := findings.countP (fun f => f.classification == "SKIP")
  let totalClassified := tp + fp
  let fpRate : Rat :=
    if totalClassified > 0 then ((fp : Rat) / (totalClassified : Rat)) * 100
    else 0
  let precision : Rat :=
    if totalClassified > 0 then ((tp : Rat) / (totalClassified : Rat)) * 100
    else 0
  { total := findings.length, tp := tp, fp := fp, info := info,
    skip := skipCount, fp_rate := fpRate, precision := precision }

/-- `calculate_metrics`: group the findings by rule, then compute the
per-rule metrics. -/
def calculate_metrics (fs : List Finding) : List (String × LintMetrics) :=
  (groupByLint fs).map (fun p => (p.1, lintMetricsOf p.2))

/-- The promote-to-Stable bucket, as computed identically in
`print_summary` and `generate_report`:
`[name for name, m in metrics.items() if m['fp_rate'] < 10 and m['total'] >= 5]`. -/
def promotable (metrics : List (String × LintMetrics)) : List String :=
  (metrics.filter
    (fun p => decide (p.2.fp_rate < 10 ∧ 5 ≤ p.2.total))).map Prod.fst

/-- The uncaught Python exceptions `generate_report` can raise. -/
inductive PyError where
  | zeroDivisionError
  | typeError
deriving DecidableEq

/-- `generate_report` as invoked by `main` (metrics computed from the
same triage data).  The Markdown text itself is elided; the model keeps
the control flow that decides between completing and raising:
the executive summary divides `total_tp / (total_tp + total_fp)` with no
zero guard, and the false-positive analysis section evaluates
`set(rationales)[:3]`, a `TypeError` (sets are not subscriptable),
whenever at least one finding is classified FP. -/
def generate_report (fs : List Finding)
    (metrics : List (String × LintMetrics)) : Except PyError Unit :=
  let total_tp : Nat := (metrics.map (fun p => p.2.tp)).sum
  let total_fp : Nat := (metrics.map (fun p => p.2.fp)).sum
  if total_tp + total_fp = 0 then Except.error PyError.zeroDivisionError
  else if fs.any (fun f => f.classification == "FP") then
    Except.error PyError.typeError
  else Except.ok ()

/-- Round a rational to the nearest integer, ties to even — the rounding
step of IEEE-754 round-to-nearest-even, which Python floats use. -/
def rne (q : Rat) : Int :=
  if q - ⌊q⌋ < 1 / 2 then ⌊q⌋
  else if 1 / 2 < q - ⌊q⌋ then ⌊q⌋ + 1
  else if ⌊q⌋ % 2 = 0 then ⌊q⌋ else ⌊q⌋ + 1

/-- Round a rational to the nearest IEEE binary64 value (round to
nearest, ties to even): the 53-bit significand quantum is `2^(e-52)`
where `2^e ≤ |q| < 2^(e+1)`.  The exponent range is unbounded (no
overflow or subnormal handling), which is exact for the magnitudes these
scripts compute. -/
def fl (q : Rat) : Rat :=
  if q = 0 then 0
  else if 0 < q then
    (rne (q / 2 ^ (Int.log 2 q - 52)) : Rat) * 2 ^ (Int.log 2 q - 52)
  else
    -((rne (-q / 2 ^ (Int.log 2 (-q) - 52)) : Rat) *
      2 ^ (Int.log 2 (-q) - 52))

/-- Python float division `a / b`: the exact quotient, rounded. -/
def fpDiv (a b : Rat) : Rat := fl (a / b)

/-- Python float multiplication `a * b`: the exact product, rounded. -/
def fpMul (a b : Rat) : Rat := fl (a * b)

/-- The per-lint body of `calculate_metrics` under IEEE binary64
semantics: identical counts, with `fp_rate = fl(fl(fp/(tp+fp))·100)` and
`precision = fl(fl(tp/(tp+fp))·100)` — the values the Python program
actually stores. -/
def lintMetricsOf64 (findings : List Finding) : LintMetrics :=
  let tp := findings.countP (fun f => f.classification == "TP")
  let fp := findings.countP (fun f => f.classification == "FP")
  let info := findings.countP (fun f => f.classification == "INFO")
  let skipCount := findings.countP (fun f => f.classification == "SKIP")
  let totalClassified := tp + fp
  let fpRate : Rat :=
    if totalClassified > 0 then
      fpMul (fpDiv (fp : Rat) (totalClassified : Rat)) 100
    else 0
  let precision : Rat :=
    if totalClassified > 0 then
      fpMul (fpDiv (tp : Rat) (totalClassified : Rat)) 100
    else 0
  { total := findings.length, tp := tp, fp := fp, info := info,
    skip := skipCount, fp_rate := fpRate, precision := precision }

/-- `calculate_metrics` under IEEE binary64 semantics. -/
def calculate_metrics64 (fs : List Finding) : List (String × LintMetrics) :=
  (groupByLint fs).map (fun p => (p.1, lintMetricsOf64 p.2))

end Metrics

namespace AnalyzeFP

/-! Model of `tests/ecosystem_validation/scripts/analyze_fp.py`. -/

/-- One finding record of the map-of-findings-by-id dataset shape; every
field is read with `finding.get(...)`, so each is optional. -/
structure TriageFinding where
  status : Option String
  lint : Option String
  repo : Option String
  category : Option String
  notes : Option String
deriving DecidableEq

/-- `finding.get("status", "needs_review")`. -/
def statusKey (f : TriageFinding) : String := f.status.getD "needs_review"

/-- `finding.get("lint", "unknown")`. -/
def lintKey (f : TriageFinding) : String := f.lint.getD "unknown"

/-- One value of the `by_lint` statistics dict. -/
structure LintStats where
  total : Nat
  confirmed : Nat
  fp : Nat
  wont_fix : Nat
  needs_review : Nat
deriving DecidableEq

/-- The `defaultdict` default `{"total": 0, "confirmed": 0, "fp": 0,
"wont_fix": 0, "needs_review": 0}`. -/
def zeroStats : LintStats := ⟨0, 0, 0, 0, 0⟩

/-- One finding's contribution to its rule's row: `total` always
increments, then exactly one status bucket increments (any status other
than the three recognized ones counts as needs-review). -/
def bumpStats (status : String) (s : LintStats) : LintStats :=
  if status == "confirmed" then
    { s with total := s.total + 1, confirmed := s.confirmed + 1 }
  else if status == "false_positive" then
    { s with total := s.total + 1, fp := s.fp + 1 }
  else if status == "wont_fix" then
    { s with total := s.total + 1, wont_fix := s.wont_fix + 1 }
  else
    { s with total := s.total + 1, needs_review := s.needs_review + 1 }

/-- The `by_lint` portion of `analyze_findings`, folded over
`db.get("findings", {}).values()` in insertion order. -/
def byLintStats (db : List TriageFinding) : List (String × LintStats) :=
  db.foldl
    (fun m f => upsert zeroStats (bumpStats (statusKey f)) m (lintKey f)) []

/-- `calculate_fp_rate`: `reviewed = confirmed + fp + wont_fix`, rate
`fp / reviewed * 100`, `0.0` when `reviewed == 0`. -/
def calculate_fp_rate (s : LintStats) : Rat :=
  let reviewed := s.confirmed + s.fp + s.wont_fix
  if reviewed = 0 then 0 else ((s.fp : Rat) / (reviewed : Rat)) * 100

end AnalyzeFP

namespace Benchmark

theorem processLine_of_warning (st : ParseState) (line : List Char)
    (h : containsWarning line = true) :
    processLine st line =
      { total := st.total + 1,
        counts :=
          upsert 0 (· + 1) st.counts
            ((tryParseLintName line).getD "unknown") } := by
  simp [processLine, h]

theorem processLine_of_no_warning (st : ParseState) (line : List Char)
    (h : containsWarning line = false) : processLine st line = st := by
  simp [processLine, h]

theorem valsSum_incr (m : List (String × Nat)) (k : String) :
    valsSum id (upsert 0 (· + 1) m k) = valsSum id m + 1 := by
  have h := valsSum_upsert id 0 (· + 1) m k rfl
  simp only [id] at h
  omega

/-- C3.  A line of the combined analyzer output containing `warning:`
increments `total_findings` by exactly one and exactly one bucket of
`lint_breakdown` by exactly one; when the rule-name parse fails the
incremented bucket is the catch-all `"unknown"`; lines without the marker
change nothing. -/
theorem warning_lines_never_vanish (st : ParseState) (line : List Char) :
    (containsWarning line = true →
      (processLine st line).total = st.total + 1 ∧
      valsSum id (processLine st line).counts = valsSum id st.counts + 1 ∧
      (∀ k, lookupD (processLine st line).counts k 0 =
        if (tryParseLintName line).getD "unknown" = k
        then lookupD st.counts ((tryParseLintName line).getD "unknown") 0 + 1
        else lookupD st.counts k 0) ∧
      (tryParseLintName line = none →
        (processLine st line).counts = upsert 0 (· + 1) st.counts "unknown"))
    ∧ (containsWarning line = false → processLine st line = st) := by
  constructor
  · intro h
    rw [processLine_of_warning st line h]
    refine ⟨rfl, ?_, ?_, ?_⟩
    · exact valsSum_incr _ _
    · intro k
      exact lookupD_upsert 0 (· + 1) st.counts _ k 0
    · intro hp
      simp [hp]
  · exact processLine_of_no_warning st line

theorem warning_lines_never_vanish_witness :
    containsWarning "warning: unused_import: x".toList = true ∧
    (processLine ⟨0, []⟩ "warning: unused_import: x".toList).total = 0 + 1 ∧
    valsSum id (processLine ⟨0, []⟩ "warning: unused_import: x".toList).counts =
      valsSum id (⟨0, []⟩ : ParseState).counts + 1 :=
  ⟨by decide,
    ((warning_lines_never_vanish ⟨0, []⟩ _).1 (by decide)).1,
    ((warning_lines_never_vanish ⟨0, []⟩ _).1 (by decide)).2.1⟩

/-- C2.  `run_lint_on_repo` resolves every invocation to a `RepoResult`
(it is a total function of its observed environment): a missing
directory, zero source files, an analyzer timeout and any other raised
exception each produce the documented result record — in particular the
timeout record keeps the already-computed file count and carries the
explicit timeout error, and any other failure carries the exception text
verbatim. -/
theorem run_lint_on_repo_never_raises (repoName repoPath : String)
    (experimental : Bool) (env : RepoEnv) :
    (env.isDir = false →
      run_lint_on_repo repoName repoPath experimental env =
        { name := repoName, total_findings := 0, move_files := 0,
          lint_breakdown := [],
          error := some ("Directory not found: " ++ repoPath) }) ∧
    (env.isDir = true → env.moveFiles = 0 →
      run_lint_on_repo repoName repoPath experimental env =
        { name := repoName, total_findings := 0, move_files := 0,
          lint_breakdown := [], error := some "No .move files found" }) ∧
    (env.isDir = true → env.moveFiles ≠ 0 → env.outcome = .timeout →
      run_lint_on_repo repoName repoPath experimental env =
        { name := repoName, total_findings := 0,
          move_files := env.moveFiles, lint_breakdown := [],
          error := some "Timeout after 180s" }) ∧
    (∀ e, env.isDir = true → env.moveFiles ≠ 0 →
      env.outcome = .failure e →
      run_lint_on_repo repoName repoPath experimental env =
        { name := repoName, total_findings := 0,
          move_files := env.moveFiles, lint_breakdown := [],
          error := some e }) := by
  obtain ⟨isDir, moveFiles, outcome⟩ := env
  refine ⟨?_, ?_, ?_, ?_⟩
  · intro h
    subst h
    rfl
  · intro h h0
    subst h
    subst h0
    rfl
  · intro h h0 ht
    subst h
    subst ht
    simp [run_lint_on_repo, h0]
  · intro e h h0 hf
    subst h
    subst hf
    simp [run_lint_on_repo, h0]

theorem run_lint_on_repo_never_raises_witness :
    ((⟨true, 3, .timeout⟩ : RepoEnv).isDir = true ∧
      (⟨true, 3, .timeout⟩ : RepoEnv).moveFiles ≠ 0 ∧
      (⟨true, 3, .timeout⟩ : RepoEnv).outcome = .timeout) ∧
    run_lint_on_repo "repoA" "/repos/repoA" true ⟨true, 3, .timeout⟩ =
      { name := "repoA", total_findings := 0, move_files := 3,
        lint_breakdown := [], error := some "Timeout after 180s" } :=
  ⟨⟨rfl, by decide, rfl⟩,
    (run_lint_on_repo_never_raises "repoA" "/repos/repoA" true
      ⟨true, 3, .timeout⟩).2.2.1 rfl (by decide) rfl⟩

theorem parse_invariant (lines : List (List Char)) (st : ParseState)
    (h : st.total = valsSum id st.counts) :
    (lines.foldl processLine st).total =
      valsSum id (lines.foldl processLine st).counts := by
  induction lines generalizing st with
  | nil => exact h
  | cons line rest ih =>
    refine ih (processLine st line) ?_
    by_cases hw : containsWarning line = true
    · rw [processLine_of_warning st line hw]
      simp only
      rw [valsSum_incr, h]
    · rw [processLine_of_no_warning st line (by simpa using hw)]
      exact h

theorem parseOutput_total (output : List Char) :
    (parseOutput output).total = valsSum id (parseOutput output).counts :=
  parse_invariant (splitLines output) ⟨0, []⟩ rfl

theorem run_lint_on_repo_local_invariant (repoName repoPath : String)
    (experimental : Bool) (env : RepoEnv) :
    (run_lint_on_repo repoName repoPath experimental env).total_findings =
      valsSum id
        (run_lint_on_repo repoName repoPath experimental env).lint_breakdown := by
  obtain ⟨isDir, moveFiles, outcome⟩ := env
  cases isDir with
  | false => rfl
  | true =>
    by_cases h0 : moveFiles = 0
    · subst h0
      rfl
    · cases outcome with
      | completed stdout stderr =>
        simp only [run_lint_on_repo, h0]
        simpa using parseOutput_total (stdout ++ stderr).toList
      | timeout => simp [run_lint_on_repo, h0, valsSum]
      | failure e => simp [run_lint_on_repo, h0, valsSum]

theorem valsSum_addLint (m : List (String × LintAgg)) (k : String)
    (c : Nat) (repo : String) :
    valsSum LintAgg.count (addLint m k c repo) =
      valsSum LintAgg.count m + c := by
  unfold addLint
  have h := valsSum_upsert LintAgg.count emptyAgg
    (fun a => { a with count := a.count + c, repos := a.repos ++ [repo] })
    m k rfl
  have h2 : LintAgg.count
      ((fun a => { a with count := a.count + c, repos := a.repos ++ [repo] })
        (lookupD m k emptyAgg)) = (lookupD m k emptyAgg).count + c := rfl
  rw [h2] at h
  omega

theorem valsSum_addLint_fold (bd : List (String × Nat))
    (m : List (String × LintAgg)) (repo : String) :
    valsSum LintAgg.count
        (bd.foldl (fun acc p => addLint acc p.1 p.2 repo) m) =
      valsSum LintAgg.count m + valsSum id bd := by
  induction bd generalizing m with
  | nil => simp [valsSum]
  | cons p rest ih =>
    rw [List.foldl_cons, ih, valsSum_addLint]
    simp [valsSum]
    omega

theorem valsSum_buildByLint (results : List RepoResult) :
    valsSum LintAgg.count (buildByLint results) =
      (results.map (fun r => valsSum id r.lint_breakdown)).sum := by
  suffices h : ∀ m : List (String × LintAgg),
      valsSum LintAgg.count
          (results.foldl
            (fun m r =>
              r.lint_breakdown.foldl
                (fun acc p => addLint acc p.1 p.2 r.name) m) m) =
        valsSum LintAgg.count m +
          (results.map (fun r => valsSum id r.lint_breakdown)).sum by
    simpa [buildByLint, valsSum] using h []
  induction results with
  | nil => simp [valsSum]
  | cons r rest ih =>
    intro m
    rw [List.foldl_cons, ih, valsSum_addLint_fold]
    simp [valsSum]
    omega

theorem valsSum_enrich (md : List (String × MetaEntry))
    (m : List (String × LintAgg)) :
    valsSum LintAgg.count (enrich md m) = valsSum LintAgg.count m := by
  induction m with
  | nil => rfl
  | cons p rest ih =>
    simp only [enrich, List.map_cons, valsSum, List.sum_cons] at ih ⊢
    cases assocFind md p.1 <;> simp_all

theorem buildRepos_sum_general (results : List RepoResult) :
    ∀ m : List (String × RepoSummary),
      (results.map (fun r => r.name)).Nodup →
      (∀ r ∈ results, r.name ∉ keysOf m) →
      valsSum RepoSummary.findings
          (results.foldl
            (fun m r =>
              upsert ⟨0, 0, none⟩
                (fun _ => ⟨r.total_findings, r.move_files, r.error⟩)
                m r.name) m) =
        valsSum RepoSummary.findings m +
          (results.map (fun r => r.total_findings)).sum := by
  induction results with
  | nil =>
    intro m _ _
    simp [valsSum]
  | cons r rest ih =>
    intro m hnd hfresh
    have hndr : r.name ∉ rest.map (fun r => r.name) :=
      (List.nodup_cons.mp (by simpa using hnd)).1
    have hndrest : (rest.map (fun r => r.name)).Nodup :=
      (List.nodup_cons.mp (by simpa using hnd)).2
    have hrm : r.name ∉ keysOf m := hfresh r (List.mem_cons_self r rest)
    rw [List.foldl_cons]
    have hsum : valsSum RepoSummary.findings
        (upsert (⟨0, 0, none⟩ : RepoSummary)
          (fun _ => ⟨r.total_findings, r.move_files, r.error⟩) m r.name) =
        valsSum RepoSummary.findings m + r.total_findings := by
      have h := valsSum_upsert RepoSummary.findings ⟨0, 0, none⟩
        (fun _ => (⟨r.total_findings, r.move_files, r.error⟩ : RepoSummary))
        m r.name rfl
      rw [show lookupD m r.name (⟨0, 0, none⟩ : RepoSummary) = ⟨0, 0, none⟩ by
        simp [lookupD, assocFind_eq_none_of_not_mem m r.name hrm]] at h
      simpa using h
    have hfresh' : ∀ r' ∈ rest,
        r'.name ∉ keysOf
          (upsert (⟨0, 0, none⟩ : RepoSummary)
            (fun _ => ⟨r.total_findings, r.move_files, r.error⟩) m r.name) := by
      intro r' hr' hmem
      rw [keysOf_upsert] at hmem
      by_cases hk : r.name ∈ keysOf m
      · rw [if_pos hk] at hmem
        exact hfresh r' (List.mem_cons_of_mem r hr') hmem
      · rw [if_neg hk] at hmem
        rcases List.mem_append.mp hmem with h1 | h2
        · exact hfresh r' (List.mem_cons_of_mem r hr') h1
        · have : r'.name = r.name := by simpa using h2
          exact hndr (this ▸ List.mem_map.mpr ⟨r', hr', rfl⟩)
    rw [ih _ hndrest hfresh', hsum]
    simp
    omega

theorem buildRepos_sum (results : List RepoResult)
    (hnd : (results.map (fun r => r.name)).Nodup) :
    valsSum RepoSummary.findings (buildRepos results) =
      (results.map (fun r => r.total_findings)).sum := by
  simpa [buildRepos, valsSum] using
    buildRepos_sum_general results [] hnd (by simp [keysOf])

/-- C1 (amended).  Every `RepoResult` that `run_lint_on_repo` produces
satisfies `total_findings = Σ lint_breakdown`, and for a results list
whose repo names are pairwise distinct and whose members satisfy that
per-result invariant, the snapshot's grand total equals the sum of the
`by_lint` per-rule counts and the sum of the per-repo finding counts. -/
theorem totals_agree_of_distinct_names :
    (∀ (repoName repoPath : String) (experimental : Bool) (env : RepoEnv),
      (run_lint_on_repo repoName repoPath experimental env).total_findings =
        valsSum id
          (run_lint_on_repo repoName repoPath experimental env).lint_breakdown)
    ∧ ∀ (md : List (String × MetaEntry)) (results : List RepoResult),
        (results.map (fun r => r.name)).Nodup →
        (∀ r ∈ results,
          r.total_findings = valsSum id r.lint_breakdown) →
        (run_benchmark md results).total_findings =
            valsSum LintAgg.count (run_benchmark md results).by_lint ∧
          (run_benchmark md results).total_findings =
            valsSum RepoSummary.findings (run_benchmark md results).repos := by
  refine ⟨run_lint_on_repo_local_invariant, ?_⟩
  intro md results hnd hinv
  constructor
  · show (results.map (fun r => r.total_findings)).sum =
      valsSum LintAgg.count (enrich md (buildByLint results))
    rw [valsSum_enrich, valsSum_buildByLint]
    congr 1
    exact List.map_congr_left (fun r hr => hinv r hr)
  · show (results.map (fun r => r.total_findings)).sum =
      valsSum RepoSummary.findings (buildRepos results)
    exact (buildRepos_sum results hnd).symm

/-- C1 (counterexample).  With two results carrying the same repo name,
the `repos` dict comprehension collapses them and the per-repo sum drops
to 1 while the grand total and the per-rule sum are 2, so the claim's
unconditional triple equality fails. -/
theorem totals_disagree_on_duplicate_names :
    (run_benchmark []
        [⟨"A", 1, 1, [("x", 1)], none⟩, ⟨"A", 1, 1, [("x", 1)], none⟩]).total_findings = 2 ∧
    valsSum LintAgg.count
        (run_benchmark []
          [⟨"A", 1, 1, [("x", 1)], none⟩, ⟨"A", 1, 1, [("x", 1)], none⟩]).by_lint = 2 ∧
    valsSum RepoSummary.findings
        (run_benchmark []
          [⟨"A", 1, 1, [("x", 1)], none⟩, ⟨"A", 1, 1, [("x", 1)], none⟩]).repos = 1 ∧
    (2 : Nat) ≠ 1 := by
  refine ⟨by decide, by decide, by decide, by decide⟩

theorem totals_agree_witness :
    (([⟨"A", 2, 3, [("unused_import", 2)], none⟩] :
        List RepoResult).map (fun r => r.name)).Nodup ∧
    (∀ r ∈ ([⟨"A", 2, 3, [("unused_import", 2)], none⟩] :
        List RepoResult), r.total_findings = valsSum id r.lint_breakdown) ∧
    (run_benchmark [] [⟨"A", 2, 3, [("unused_import", 2)], none⟩]).total_findings =
        valsSum LintAgg.count
          (run_benchmark [] [⟨"A", 2, 3, [("unused_import", 2)], none⟩]).by_lint ∧
    (run_benchmark [] [⟨"A", 2, 3, [("unused_import", 2)], none⟩]).total_findings =
        valsSum RepoSummary.findings
          (run_benchmark [] [⟨"A", 2, 3, [("unused_import", 2)], none⟩]).repos :=
  ⟨by decide, by decide,
    (totals_agree_of_distinct_names.2 [] _ (by decide) (by decide)).1,
    (totals_agree_of_distinct_names.2 [] _ (by decide) (by decide)).2⟩

theorem assocFind_mem {β : Type} (m : List (String × β)) (k : String)
    (v : β) (h : assocFind m k = some v) : (k, v) ∈ m := by
  induction m with
  | nil => cases h
  | cons p rest ih =>
    obtain ⟨k₀, v₀⟩ := p
    by_cases hk : k₀ = k
    · subst hk
      have h' : v₀ = v := by simpa [assocFind] using h
      subst h'
      exact List.mem_cons_self _ _
    · simp only [assocFind, if_neg hk] at h
      exact List.mem_cons_of_mem _ (ih h)

theorem allVals_upsert {β : Type} (P : β → Prop) (init : β) (upd : β → β)
    (m : List (String × β)) (k : String) (hinit : P init)
    (hupd : ∀ v, P v → P (upd v)) (hm : ∀ p ∈ m, P p.2) :
    ∀ p ∈ upsert init upd m k, P p.2 := by
  induction m with
  | nil =>
    intro p hp
    simp only [upsert, List.mem_singleton] at hp
    subst hp
    exact hupd init hinit
  | cons q rest ih =>
    obtain ⟨k₀, v₀⟩ := q
    intro p hp
    by_cases hk : k₀ = k
    · simp only [upsert, if_pos hk] at hp
      rcases List.mem_cons.mp hp with h | h
      · subst h
        exact hupd v₀ (hm (k₀, v₀) (List.mem_cons_self _ _))
      · exact hm p (List.mem_cons_of_mem _ h)
    · simp only [upsert, if_neg hk] at hp
      rcases List.mem_cons.mp hp with h | h
      · subst h
        exact hm (k₀, v₀) (List.mem_cons_self _ _)
      · exact ih (fun q hq => hm q (List.mem_cons_of_mem _ hq)) p h

theorem buildByLint_fields (results : List RepoResult) :
    ∀ p ∈ buildByLint results, p.2.tier = none ∧ p.2.category = none := by
  suffices h : ∀ (rs : List RepoResult) (m : List (String × LintAgg)),
      (∀ p ∈ m, p.2.tier = none ∧ p.2.category = none) →
      ∀ p ∈ rs.foldl
        (fun m r =>
          r.lint_breakdown.foldl (fun acc q => addLint acc q.1 q.2 r.name) m)
        m, p.2.tier = none ∧ p.2.category = none by
    exact h results [] (by simp)
  intro rs
  induction rs with
  | nil => exact fun m hm => hm
  | cons r rest ih =>
    intro m hm
    rw [List.foldl_cons]
    refine ih _ ?_
    suffices hbd : ∀ (bd : List (String × Nat)) (m : List (String × LintAgg)),
        (∀ p ∈ m, p.2.tier = none ∧ p.2.category = none) →
        ∀ p ∈ bd.foldl (fun acc q => addLint acc q.1 q.2 r.name) m,
          p.2.tier = none ∧ p.2.category = none from hbd _ m hm
    intro bd
    induction bd with
    | nil => exact fun m hm => hm
    | cons q qrest qih =>
      intro m hm
      rw [List.foldl_cons]
      refine qih _ ?_
      refine allVals_upsert
        (fun a : LintAgg => a.tier = none ∧ a.category = none) emptyAgg
        (fun a => { a with count := a.count + q.2, repos := a.repos ++ [r.name] })
        m q.1 ⟨rfl, rfl⟩ ?_ hm
      intro v hv
      exact hv

theorem keysOf_enrich (md : List (String × MetaEntry))
    (m : List (String × LintAgg)) : keysOf (enrich md m) = keysOf m := by
  induction m with
  | nil => rfl
  | cons p rest ih =>
    simp only [enrich, keysOf, List.map_cons] at ih ⊢
    cases assocFind md p.1 <;> simp_all

theorem assocFind_enrich (md : List (String × MetaEntry))
    (m : List (String × LintAgg)) (k : String) :
    assocFind (enrich md m) k =
      (assocFind m k).map (fun a =>
        match assocFind md k with
        | some e =>
          { a with tier := some e.tier, category := some e.category }
        | none => a) := by
  induction m with
  | nil => rfl
  | cons p rest ih =>
    obtain ⟨k₀, a₀⟩ := p
    by_cases hk : k₀ = k
    · subst hk
      cases hmd : assocFind md k₀ <;>
        simp [enrich, assocFind, hmd]
    · cases hmd : assocFind md k₀ <;>
        simp [enrich, assocFind, hk, hmd] <;>
        simpa [enrich] using ih

theorem lookupD_rollup_fold (key : LintAgg → String)
    (m : List (String × LintAgg)) (t : String) :
    ∀ acc : List (String × Nat),
      lookupD
          (m.foldl (fun acc p => upsert 0 (· + p.2.count) acc (key p.2)) acc)
          t 0 =
        lookupD acc t 0 +
          ((m.filter (fun p => key p.2 == t)).map (fun p => p.2.count)).sum := by
  induction m with
  | nil =>
    intro acc
    simp
  | cons p rest ih =>
    intro acc
    rw [List.foldl_cons, ih]
    rw [lookupD_upsert 0 (· + p.2.count) acc (key p.2) t 0]
    by_cases hk : key p.2 = t
    · simp [List.filter_cons, hk]
      omega
    · simp [List.filter_cons, hk]

/-- C9 (amended).  Every rule of the aggregated counts keeps its `by_lint`
entry after metadata enrichment; a rule present in the metadata gets its
`tier`/`category` fields copied from it, while a rule absent from the
metadata keeps its entry with both fields absent (not set to the string
`"unknown"`); and the `by_tier`/`by_category` rollups credit each rule's
count to its `tier`/`category` defaulted to `"unknown"`, so rules without
metadata contribute to the `"unknown"` keys. -/
theorem unknown_metadata_rollup (md : List (String × MetaEntry))
    (results : List RepoResult) :
    keysOf (run_benchmark md results).by_lint =
        keysOf (buildByLint results) ∧
    (∀ k a, assocFind (run_benchmark md results).by_lint k = some a →
      (assocFind md k = none → a.tier = none ∧ a.category = none) ∧
      (∀ e, assocFind md k = some e →
        a.tier = some e.tier ∧ a.category = some e.category)) ∧
    lookupD (run_benchmark md results).by_tier "unknown" 0 =
      (((run_benchmark md results).by_lint.filter
          (fun p => tierKey p.2 == "unknown")).map
        (fun p => p.2.count)).sum ∧
    lookupD (run_benchmark md results).by_category "unknown" 0 =
      (((run_benchmark md results).by_lint.filter
          (fun p => categoryKey p.2 == "unknown")).map
        (fun p => p.2.count)).sum := by
  refine ⟨keysOf_enrich md (buildByLint results), ?_, ?_, ?_⟩
  · intro k a ha
    have h := (assocFind_enrich md (buildByLint results) k).symm.trans ha
    rcases Option.map_eq_some.mp h with ⟨a₀, ha₀, heq⟩
    have hfields := buildByLint_fields results (k, a₀)
      (assocFind_mem (buildByLint results) k a₀ ha₀)
    constructor
    · intro hmd
      rw [hmd] at heq
      subst heq
      exact hfields
    · intro e hmd
      rw [hmd] at heq
      subst heq
      exact ⟨rfl, rfl⟩
  · have h := lookupD_rollup_fold tierKey
      (run_benchmark md results).by_lint "unknown" []
    rw [show lookupD ([] : List (String × Nat)) "unknown" 0 = 0 from rfl,
      Nat.zero_add] at h
    exact h
  · have h := lookupD_rollup_fold categoryKey
      (run_benchmark md results).by_lint "unknown" []
    rw [show lookupD ([] : List (String × Nat)) "unknown" 0 = 0 from rfl,
      Nat.zero_add] at h
    exact h

/-- C9 (counterexample).  A rule absent from the supplied metadata keeps
a `by_lint` entry with NO tier/category fields (modelled `none`), not
fields set to `"unknown"` as the claim states; its count nevertheless
reaches the `"unknown"` rollup keys. -/
theorem missing_metadata_leaves_fields_absent :
    (run_benchmark [] [⟨"r1", 2, 1, [("mystery", 2)], none⟩]).by_lint.map
        (fun p => (p.1, p.2.tier, p.2.category)) =
      [("mystery", none, none)] ∧
    (none : Option String) ≠ some "unknown" ∧
    lookupD (run_benchmark []
        [⟨"r1", 2, 1, [("mystery", 2)], none⟩]).by_tier "unknown" 0 = 2 ∧
    lookupD (run_benchmark []
        [⟨"r1", 2, 1, [("mystery", 2)], none⟩]).by_category "unknown" 0 = 2 := by
  refine ⟨by decide, by decide, by decide, by decide⟩

theorem unknown_metadata_rollup_witness :
    assocFind (run_benchmark []
        [⟨"r1", 2, 1, [("mystery", 2)], none⟩]).by_lint "mystery" =
      some ⟨2, ["r1"], none, none⟩ ∧
    assocFind ([] : List (String × MetaEntry)) "mystery" = none ∧
    (⟨2, ["r1"], none, none⟩ : LintAgg).tier = none ∧
    (⟨2, ["r1"], none, none⟩ : LintAgg).category = none :=
  ⟨by decide, rfl,
    ((unknown_metadata_rollup [] [⟨"r1", 2, 1, [("mystery", 2)], none⟩]).2.1
      "mystery" ⟨2, ["r1"], none, none⟩ (by decide) |>.1 rfl).1,
    ((unknown_metadata_rollup [] [⟨"r1", 2, 1, [("mystery", 2)], none⟩]).2.1
      "mystery" ⟨2, ["r1"], none, none⟩ (by decide) |>.1 rfl).2⟩

end Benchmark

namespace Compare

open Benchmark

theorem lintChangeAt_self (S : BenchmarkResult) (k : String) :
    lintChangeAt S S k = none := by
  simp [lintChangeAt]

theorem repoChangeAt_self (S : BenchmarkResult) (k : String) :
    repoChangeAt S S k = none := by
  simp [repoChangeAt]

/-- C4.  Comparing a snapshot with itself yields the three overall rows
with delta 0, a zero delta for every tier of any enumeration of the tier
keys, an empty lint-changes report (nothing reported, nothing omitted),
no new lints, no removed lints, an empty repo-changes report, and the
verdict `NO CHANGE`. -/
theorem compare_self_no_change (S : BenchmarkResult)
    (tierOrder lintOrder repoOrder : List String) :
    overallDeltas S S =
      [("Total repos", 0), ("Repos with findings", 0),
        ("Total findings", 0)] ∧
    tierDeltas tierOrder S S = tierOrder.map (fun t => (t, (0 : Int))) ∧
    lintChanges lintOrder S S = [] ∧
    reportedLintChanges lintOrder S S = [] ∧
    omittedLintChanges lintOrder S S = 0 ∧
    newLints S S = [] ∧
    removedLints S S = [] ∧
    repoChanges repoOrder S S = [] ∧
    verdict S S = "NO CHANGE" := by
  have hlc : lintChanges lintOrder S S = [] := by
    simp [lintChanges, lintChangeAt_self]
  have hrc : repoChanges repoOrder S S = [] := by
    simp [repoChanges, repoChangeAt_self]
  refine ⟨?_, ?_, hlc, ?_, ?_, ?_, ?_, hrc, ?_⟩
  · simp [overallDeltas]
  · simp [tierDeltas]
  · simp [reportedLintChanges, sortedLintChanges, hlc]
  · simp [omittedLintChanges, hlc]
  · simp [newLints, List.filter_eq_nil_iff]
  · simp [removedLints, List.filter_eq_nil_iff]
  · simp [verdict]

theorem mem_lintChanges (order : List String) (old new : BenchmarkResult)
    (c : LintChange) :
    c ∈ lintChanges order old new ↔
      (c.lint ∈ order ∧
        c.oldCount = lintCountOf old.by_lint c.lint ∧
        c.newCount = lintCountOf new.by_lint c.lint ∧
        c.delta = ((c.newCount : Nat) : Int) - ((c.oldCount : Nat) : Int) ∧
        c.delta ≠ 0) := by
  simp only [lintChanges, List.mem_filterMap]
  constructor
  · rintro ⟨k, hk, hc⟩
    simp only [lintChangeAt] at hc
    split at hc
    · rename_i hd
      cases hc
      exact ⟨hk, rfl, rfl, rfl, hd⟩
    · cases hc
  · rintro ⟨h1, h2, h3, h4, h5⟩
    refine ⟨c.lint, h1, ?_⟩
    obtain ⟨cl, co, cn, cd⟩ := c
    simp only at h1 h2 h3 h4 h5
    subst h2
    subst h3
    subst h4
    simp only [lintChangeAt, if_pos h5]

theorem map_lint_lintChanges_sublist (order : List String)
    (old new : BenchmarkResult) :
    ((lintChanges order old new).map (fun c => c.lint)).Sublist order := by
  induction order with
  | nil => simp [lintChanges]
  | cons k rest ih =>
    simp only [lintChanges, List.filterMap_cons] at ih ⊢
    cases hc : lintChangeAt old new k with
    | none => exact ih.cons k
    | some c =>
      have hck : c.lint = k := by
        simp only [lintChangeAt] at hc
        split at hc
        · cases hc
          rfl
        · cases hc
      simp only [List.map_cons, hck]
      exact ih.cons₂ k

/-- C5 (amended).  For any enumeration `order` of the union of the two
rule tables' keys (Python iterates `set(old)|set(new)`, whose order is
interpreter-dependent, before the stable sort), the sorted changes list
contains exactly the union rules with non-zero delta `new − old`, each at
most once, is sorted by descending absolute delta, the printed report is
its first 20 rows, and the omitted count is the number of remaining rows.
The report is a deterministic function of the snapshots and that
enumeration order — but not of the snapshots alone. -/
theorem lint_changes_report_sound (old new : BenchmarkResult)
    (order : List String) (hnd : order.Nodup)
    (hcover : ∀ k ∈ unionLintKeys old new, k ∈ order)
    (hsub : ∀ k ∈ order, k ∈ unionLintKeys old new) :
    (∀ c, c ∈ sortedLintChanges order old new ↔
      (c.lint ∈ unionLintKeys old new ∧
        c.oldCount = lintCountOf old.by_lint c.lint ∧
        c.newCount = lintCountOf new.by_lint c.lint ∧
        c.delta = ((c.newCount : Nat) : Int) - ((c.oldCount : Nat) : Int) ∧
        c.delta ≠ 0)) ∧
    (sortedLintChanges order old new).Sorted moreChanged ∧
    ((sortedLintChanges order old new).map (fun c => c.lint)).Nodup ∧
    reportedLintChanges order old new =
      (sortedLintChanges order old new).take 20 ∧
    omittedLintChanges order old new =
      (sortedLintChanges order old new).length -
        (reportedLintChanges order old new).length := by
  have hperm := List.perm_insertionSort moreChanged (lintChanges order old new)
  refine ⟨?_, ?_, ?_, rfl, ?_⟩
  · intro c
    rw [show sortedLintChanges order old new =
        (lintChanges order old new).insertionSort moreChanged from rfl,
      hperm.mem_iff, mem_lintChanges]
    constructor
    · rintro ⟨h1, h⟩
      exact ⟨hsub c.lint h1, h⟩
    · rintro ⟨h1, h⟩
      exact ⟨hcover c.lint h1, h⟩
  · exact List.sorted_insertionSort moreChanged _
  · have hsubl := map_lint_lintChanges_sublist order old new
    have hnodup : ((lintChanges order old new).map (fun c => c.lint)).Nodup :=
      hsubl.nodup hnd
    exact ((hperm.map (fun c => c.lint)).nodup_iff).mpr hnodup
  · have hlen : (sortedLintChanges order old new).length =
        (lintChanges order old new).length := hperm.length_eq
    simp only [omittedLintChanges, reportedLintChanges, List.length_take]
    omega

/-- A pair of snapshots exercising the tie-breaking of the changes sort:
two rules with deltas `+1` and `−1` (equal magnitude). -/
def exOld : BenchmarkResult :=
  { total_repos := 2, repos_with_findings := 2, total_findings := 2,
    by_lint := [("a", ⟨1, [], none, none⟩), ("b", ⟨1, [], none, none⟩)],
    by_tier := [], by_category := [], repos := [] }

/-- The `new` side of the tie-breaking example. -/
def exNew : BenchmarkResult :=
  { total_repos := 2, repos_with_findings := 2, total_findings := 2,
    by_lint := [("a", ⟨2, [], none, none⟩), ("b", ⟨0, [], none, none⟩)],
    by_tier := [], by_category := [], repos := [] }

/-- C5 (counterexample).  Two valid enumerations of the same rule-key
union — both orders in which Python may iterate `set(old)|set(new)`,
depending on the interpreter's hash seed — produce different reports for
the same pair of snapshots, because equal-magnitude deltas keep the
enumeration order under the stable sort.  The report is therefore not a
deterministic function of the two snapshots alone, and ties are not
broken by any property of the snapshots. -/
theorem lint_report_depends_on_set_order :
    (["a", "b"] : List String).Nodup ∧
    (["b", "a"] : List String).Nodup ∧
    (∀ k ∈ unionLintKeys exOld exNew, k ∈ (["a", "b"] : List String)) ∧
    (∀ k ∈ (["a", "b"] : List String), k ∈ unionLintKeys exOld exNew) ∧
    (∀ k ∈ unionLintKeys exOld exNew, k ∈ (["b", "a"] : List String)) ∧
    (∀ k ∈ (["b", "a"] : List String), k ∈ unionLintKeys exOld exNew) ∧
    reportedLintChanges ["a", "b"] exOld exNew ≠
      reportedLintChanges ["b", "a"] exOld exNew := by
  refine ⟨by decide, by decide, by decide, by decide, by decide, by decide,
    by decide⟩

theorem lint_changes_report_sound_witness :
    ((["a", "b"] : List String).Nodup ∧
      (∀ k ∈ unionLintKeys exOld exNew, k ∈ (["a", "b"] : List String)) ∧
      (∀ k ∈ (["a", "b"] : List String), k ∈ unionLintKeys exOld exNew)) ∧
    (sortedLintChanges ["a", "b"] exOld exNew).Sorted moreChanged ∧
    reportedLintChanges ["a", "b"] exOld exNew =
      (sortedLintChanges ["a", "b"] exOld exNew).take 20 :=
  ⟨⟨by decide, by decide, by decide⟩,
    (lint_changes_report_sound exOld exNew ["a", "b"]
      (by decide) (by decide) (by decide)).2.1,
    (lint_changes_report_sound exOld exNew ["a", "b"]
      (by decide) (by decide) (by decide)).2.2.2.1⟩

end Compare

namespace Metrics

theorem lookupD_groupByLint_general (fs : List Finding) :
    ∀ (m : List (String × List Finding)) (k : String),
      lookupD
          (fs.foldl (fun m f => upsert [] (fun l => l ++ [f]) m f.lint) m)
          k [] =
        lookupD m k [] ++ fs.filter (fun f => f.lint == k) := by
  induction fs with
  | nil =>
    intro m k
    simp
  | cons f rest ih =>
    intro m k
    rw [List.foldl_cons, ih]
    rw [lookupD_upsert [] (fun l => l ++ [f]) m f.lint k []]
    by_cases hk : f.lint = k
    · subst hk
      simp [List.filter_cons]
    · simp [List.filter_cons, hk]

theorem nodupKeys_groupByLint (fs : List Finding) :
    (keysOf (groupByLint fs)).Nodup := by
  suffices h : ∀ m : List (String × List Finding), (keysOf m).Nodup →
      (keysOf
        (fs.foldl (fun m f => upsert [] (fun l => l ++ [f]) m f.lint) m)).Nodup by
    exact h [] (by simp [keysOf])
  induction fs with
  | nil => exact fun m hm => hm
  | cons f rest ih =>
    intro m hm
    rw [List.foldl_cons]
    exact ih _ (nodupKeys_upsert [] (fun l => l ++ [f]) m f.lint hm)

theorem groupByLint_bucket (fs : List Finding) (k : String)
    (bucket : List Finding) (h : (k, bucket) ∈ groupByLint fs) :
    bucket = fs.filter (fun f => f.lint == k) := by
  have hfind := assocFind_eq_of_mem (groupByLint fs) k bucket
    (nodupKeys_groupByLint fs) h
  have hl : lookupD (groupByLint fs) k [] = bucket := by
    simp [lookupD, hfind]
  have hg : lookupD (groupByLint fs) k [] =
      lookupD [] k [] ++ fs.filter (fun f => f.lint == k) :=
    lookupD_groupByLint_general fs [] k
  rw [hl] at hg
  simpa using hg

theorem ratio_nonneg (a b : Nat) : (0 : Rat) ≤ ((a : Rat) / (b : Rat)) * 100 := by
  positivity

theorem ratio_le_100 (a b : Nat) (hab : a ≤ b) (hb : 0 < b) :
    ((a : Rat) / (b : Rat)) * 100 ≤ 100 := by
  have hb' : (0 : Rat) < (b : Rat) := by exact_mod_cast hb
  have h1 : (a : Rat) / (b : Rat) ≤ 1 :=
    (div_le_one hb').mpr (by exact_mod_cast hab)
  nlinarith

theorem ratio_sum (a b : Nat) (h : 0 < a + b) :
    ((a : Rat) / ((a + b : Nat) : Rat)) * 100 +
      ((b : Rat) / ((a + b : Nat) : Rat)) * 100 = 100 := by
  have h0 : ((a : Rat) + (b : Rat)) ≠ 0 := by
    have hpos : (0 : Rat) < (a : Rat) + (b : Rat) := by exact_mod_cast h
    linarith
  push_cast
  field_simp
  ring

/-- The `calculate_metrics` record fields, read back definitionally. -/
theorem lintMetricsOf_fields (l : List Finding) :
    (lintMetricsOf l).total = l.length ∧
    (lintMetricsOf l).tp = l.countP (fun f => f.classification == "TP") ∧
    (lintMetricsOf l).fp = l.countP (fun f => f.classification == "FP") ∧
    (lintMetricsOf l).fp_rate =
      (if 0 < (lintMetricsOf l).tp + (lintMetricsOf l).fp then
        (((lintMetricsOf l).fp : Rat) /
            (((lintMetricsOf l).tp + (lintMetricsOf l).fp : Nat) : Rat)) * 100
      else 0) ∧
    (lintMetricsOf l).precision =
      (if 0 < (lintMetricsOf l).tp + (lintMetricsOf l).fp then
        (((lintMetricsOf l).tp : Rat) /
            (((lintMetricsOf l).tp + (lintMetricsOf l).fp : Nat) : Rat)) * 100
      else 0) :=
  ⟨rfl, rfl, rfl, rfl, rfl⟩

/-- C6 (amended).  For every rule of the triage dataset, the computed
`tp`/`fp` counts only include findings classified `TP` resp. `FP` among
that rule's findings (so `INFO` and `SKIP` enter neither numerator nor
denominator); in exact arithmetic `fp_rate = fp/(tp+fp)·100` and
`precision = tp/(tp+fp)·100`, both lie in `[0, 100]`, they add to
exactly 100 whenever `tp+fp > 0`, and both are 0 when `tp+fp = 0`.
The program's binary64 values round each of these and their sum can fall
one ulp short of 100 (see the counterexample on `lintMetricsOf64`). -/
theorem fp_rate_precision_properties (fs : List Finding) (k : String)
    (m : LintMetrics) (hm : (k, m) ∈ calculate_metrics fs) :
    m.tp = (fs.filter (fun f => f.lint == k)).countP
        (fun f => f.classification == "TP") ∧
    m.fp = (fs.filter (fun f => f.lint == k)).countP
        (fun f => f.classification == "FP") ∧
    m.fp_rate =
      (if 0 < m.tp + m.fp then
        ((m.fp : Rat) / ((m.tp + m.fp : Nat) : Rat)) * 100 else 0) ∧
    m.precision =
      (if 0 < m.tp + m.fp then
        ((m.tp : Rat) / ((m.tp + m.fp : Nat) : Rat)) * 100 else 0) ∧
    0 ≤ m.fp_rate ∧ m.fp_rate ≤ 100 ∧
    0 ≤ m.precision ∧ m.precision ≤ 100 ∧
    (0 < m.tp + m.fp → m.fp_rate + m.precision = 100) ∧
    (m.tp + m.fp = 0 → m.fp_rate = 0 ∧ m.precision = 0) := by
  obtain ⟨p, hp, hpe⟩ := List.mem_map.mp hm
  obtain ⟨k₀, bucket⟩ := p
  obtain ⟨hk, hmm⟩ := Prod.mk.inj hpe
  subst hk
  subst hmm
  have hbucket := groupByLint_bucket fs k₀ bucket hp
  subst hbucket
  obtain ⟨_, htp, hfp, hrate, hprec⟩ :=
    lintMetricsOf_fields (fs.filter (fun f => f.lint == k₀))
  refine ⟨htp, hfp, hrate, hprec, ?_, ?_, ?_, ?_, ?_, ?_⟩
  · rw [hrate]
    split
    · exact ratio_nonneg _ _
    · exact le_refl 0
  · rw [hrate]
    split
    · rename_i hpos
      exact ratio_le_100 _ _ (Nat.le_add_left _ _) hpos
    · norm_num
  · rw [hprec]
    split
    · exact ratio_nonneg _ _
    · exact le_refl 0
  · rw [hprec]
    split
    · rename_i hpos
      exact ratio_le_100 _ _ (Nat.le_add_right _ _) hpos
    · norm_num
  · intro hpos
    rw [hrate, hprec, if_pos hpos, if_pos hpos]
    have h := ratio_sum (lintMetricsOf (fs.filter (fun f => f.lint == k₀))).tp
      (lintMetricsOf (fs.filter (fun f => f.lint == k₀))).fp hpos
    linarith [h]
  · intro hz
    rw [htp, hfp] at hz
    rw [hrate, hprec]
    rw [if_neg (by omega), if_neg (by omega)]
    exact ⟨rfl, rfl⟩

/-- A two-finding triage dataset: one TP and one FP for rule `r`. -/
def exC6 : List Finding :=
  [⟨"r", "p", "f", 1, none, "m", "w", "TP"⟩,
   ⟨"r", "p", "f", 2, none, "m", "w", "FP"⟩]

theorem fp_rate_precision_properties_witness :
    (("r", lintMetricsOf exC6) ∈ calculate_metrics exC6) ∧
    0 ≤ (lintMetricsOf exC6).fp_rate ∧
    (0 < (lintMetricsOf exC6).tp + (lintMetricsOf exC6).fp →
      (lintMetricsOf exC6).fp_rate + (lintMetricsOf exC6).precision = 100) := by
  have hmem : ("r", lintMetricsOf exC6) ∈ calculate_metrics exC6 := by
    have heval : calculate_metrics exC6 = [("r", lintMetricsOf exC6)] := rfl
    rw [heval]
    exact List.mem_singleton.mpr rfl
  exact ⟨hmem,
    (fp_rate_precision_properties exC6 "r" (lintMetricsOf exC6) hmem).2.2.2.2.1,
    (fp_rate_precision_properties exC6 "r"
      (lintMetricsOf exC6) hmem).2.2.2.2.2.2.2.2.1⟩

theorem log_eval (q : Rat) (e : Int) (hq : 0 < q) (h1 : (2 : Rat) ^ e ≤ q)
    (h2 : q < (2 : Rat) ^ (e + 1)) : Int.log 2 q = e := by
  have ha : e ≤ Int.log 2 q :=
    (Int.zpow_le_iff_le_log (by norm_num : (1 : Nat) < 2) hq).mp
      (by exact_mod_cast h1)
  have hb : Int.log 2 q < e + 1 :=
    (Int.lt_zpow_iff_log_lt (by norm_num : (1 : Nat) < 2) hq).mp
      (by exact_mod_cast h2)
  omega

theorem rne_eval_down (q : Rat) (f : Int) (h1 : (f : Rat) ≤ q)
    (h2 : q - f < 1 / 2) : rne q = f := by
  have hf : ⌊q⌋ = f := by
    rw [Int.floor_eq_iff]
    constructor
    · exact h1
    · linarith
  rw [rne, hf]
  rw [if_pos (by rw [hf] at *; linarith)]

theorem fl_eval_pos (q v : Rat) (e f : Int) (hq : 0 < q)
    (hlow : (2 : Rat) ^ e ≤ q) (hhigh : q < (2 : Rat) ^ (e + 1))
    (hfl : (f : Rat) ≤ q / 2 ^ (e - 52))
    (hfr : q / 2 ^ (e - 52) - f < 1 / 2)
    (hv : (f : Rat) * 2 ^ (e - 52) = v) :
    fl q = v := by
  have hlog : Int.log 2 q = e := log_eval q e hq hlow hhigh
  rw [fl, if_neg hq.ne', if_pos hq, hlog, rne_eval_down _ f hfl hfr, hv]

theorem fl_two_thirds : fl (2 / 3) = 6004799503160661 / 9007199254740992 := by
  apply fl_eval_pos (2 / 3) _ (-1) 6004799503160661 (by norm_num)
    (by norm_num) (by norm_num) (by norm_num) (by norm_num)
  norm_num

theorem fl_one_third : fl (1 / 3) = 6004799503160661 / 18014398509481984 := by
  apply fl_eval_pos (1 / 3) _ (-2) 6004799503160661 (by norm_num)
    (by norm_num) (by norm_num) (by norm_num) (by norm_num)
  norm_num

theorem fl_third_times_100 :
    fl ((6004799503160661 / 18014398509481984 : Rat) * 100) =
      4691249611844266 / 140737488355328 := by
  apply fl_eval_pos _ _ 5 4691249611844266 (by norm_num) (by norm_num)
    (by norm_num) (by norm_num) (by norm_num)
  norm_num

theorem fl_two_thirds_times_100 :
    fl ((6004799503160661 / 9007199254740992 : Rat) * 100) =
      4691249611844266 / 70368744177664 := by
  apply fl_eval_pos _ _ 6 4691249611844266 (by norm_num) (by norm_num)
    (by norm_num) (by norm_num) (by norm_num)
  norm_num

/-- The `calculate_metrics` record fields under binary64 semantics, read
back definitionally. -/
theorem lintMetricsOf64_fields (l : List Finding) :
    (lintMetricsOf64 l).tp = l.countP (fun f => f.classification == "TP") ∧
    (lintMetricsOf64 l).fp = l.countP (fun f => f.classification == "FP") ∧
    (lintMetricsOf64 l).fp_rate =
      (if 0 < (lintMetricsOf64 l).tp + (lintMetricsOf64 l).fp then
        fpMul (fpDiv ((lintMetricsOf64 l).fp : Rat)
          (((lintMetricsOf64 l).tp + (lintMetricsOf64 l).fp : Nat) : Rat)) 100
      else 0) ∧
    (lintMetricsOf64 l).precision =
      (if 0 < (lintMetricsOf64 l).tp + (lintMetricsOf64 l).fp then
        fpMul (fpDiv ((lintMetricsOf64 l).tp : Rat)
          (((lintMetricsOf64 l).tp + (lintMetricsOf64 l).fp : Nat) : Rat)) 100
      else 0) :=
  ⟨rfl, rfl, rfl, rfl⟩

/-- A rule with one TP and two FP findings: the smallest dataset on which
the program's binary64 rate and precision do not add to 100. -/
def exC6b : List Finding :=
  [⟨"r", "p", "f", 1, none, "m", "w", "TP"⟩,
   ⟨"r", "p", "f", 2, none, "m", "w", "FP"⟩,
   ⟨"r", "p", "f", 3, none, "m", "w", "FP"⟩]

/-- C6 (counterexample).  Under the binary64 semantics the program
actually uses, a rule with 1 TP and 2 FP gets
`fp_rate = fl(fl(2/3)·100) = 66.66666666666666` and
`precision = fl(fl(1/3)·100) = 33.333333333333336`, whose exact sum is
`7036874417766399·2⁻⁴⁶ = 99.99999999999999 ≠ 100` — one ulp short — so
the claim's `fp_rate + precision = 100` conjunct is false of the
program even though `tp + fp = 3 > 0`. -/
theorem fp_rate_precision_sum_not_exact :
    (("r", lintMetricsOf64 exC6b) ∈ calculate_metrics64 exC6b) ∧
    0 < (lintMetricsOf64 exC6b).tp + (lintMetricsOf64 exC6b).fp ∧
    (lintMetricsOf64 exC6b).fp_rate + (lintMetricsOf64 exC6b).precision =
      7036874417766399 / 70368744177664 ∧
    (lintMetricsOf64 exC6b).fp_rate + (lintMetricsOf64 exC6b).precision ≠
      100 := by
  have hmemeq : calculate_metrics64 exC6b = [("r", lintMetricsOf64 exC6b)] :=
    rfl
  have htp : (lintMetricsOf64 exC6b).tp = 1 := by decide
  have hfp : (lintMetricsOf64 exC6b).fp = 2 := by decide
  have hrate : (lintMetricsOf64 exC6b).fp_rate = fl (fl (2 / 3) * 100) := by
    have h := (lintMetricsOf64_fields exC6b).2.2.1
    rw [htp, hfp] at h
    rw [h, if_pos (by norm_num)]
    norm_num [fpMul, fpDiv]
  have hprec : (lintMetricsOf64 exC6b).precision = fl (fl (1 / 3) * 100) := by
    have h := (lintMetricsOf64_fields exC6b).2.2.2
    rw [htp, hfp] at h
    rw [h, if_pos (by norm_num)]
    norm_num [fpMul, fpDiv]
  rw [hrate, hprec, fl_two_thirds, fl_one_third, fl_two_thirds_times_100,
    fl_third_times_100]
  refine ⟨?_, ?_, by norm_num, by norm_num⟩
  · rw [hmemeq]
    exact List.mem_singleton.mpr rfl
  · rw [htp, hfp]
    norm_num

/-- C7 (amended).  A rule lands in the promote-to-Stable bucket exactly
when its false-positive rate is below 10 percent AND its TOTAL number of
triaged findings — including those classified `INFO` or `SKIP` — is at
least 5; the minimum sample size is not restricted to classified (TP/FP)
findings. -/
theorem promotable_iff_uses_total (metrics : List (String × LintMetrics))
    (k : String) :
    k ∈ promotable metrics ↔
      ∃ m, (k, m) ∈ metrics ∧ m.fp_rate < 10 ∧ 5 ≤ m.total := by
  constructor
  · intro h
    obtain ⟨p, hp, hpk⟩ := List.mem_map.mp h
    obtain ⟨hmem, hq⟩ := List.mem_filter.mp hp
    refine ⟨p.2, ?_, of_decide_eq_true hq⟩
    obtain ⟨a, b⟩ := p
    subst hpk
    exact hmem
  · rintro ⟨m, hmem, h1, h2⟩
    exact List.mem_map.mpr
      ⟨(k, m), List.mem_filter.mpr ⟨hmem, decide_eq_true ⟨h1, h2⟩⟩, rfl⟩

/-- A dataset with one TP and four INFO findings for rule `r`: only one
classified finding, but five findings in total. -/
def exC7 : List Finding :=
  [⟨"r", "p", "f", 1, none, "m", "w", "TP"⟩,
   ⟨"r", "p", "f", 2, none, "m", "w", "INFO"⟩,
   ⟨"r", "p", "f", 3, none, "m", "w", "INFO"⟩,
   ⟨"r", "p", "f", 4, none, "m", "w", "INFO"⟩,
   ⟨"r", "p", "f", 5, none, "m", "w", "INFO"⟩]

/-- C7 (counterexample).  Rule `r` has only ONE classified (TP/FP)
finding — fewer than the claimed minimum of 5 — yet it is placed in the
promote-to-Stable bucket, because the code gates on `m['total'] >= 5`,
which counts INFO and SKIP findings as well. -/
theorem promotable_ignores_classified_minimum :
    promotable (calculate_metrics exC7) = ["r"] ∧
    (lintMetricsOf exC7).tp + (lintMetricsOf exC7).fp = 1 ∧
    ¬ 5 ≤ (lintMetricsOf exC7).tp + (lintMetricsOf exC7).fp := by
  have htp : (lintMetricsOf exC7).tp = 1 := by decide
  have hfp : (lintMetricsOf exC7).fp = 0 := by decide
  have htotal : (lintMetricsOf exC7).total = 5 := by decide
  have hrate : (lintMetricsOf exC7).fp_rate = 0 := by
    have h := (lintMetricsOf_fields exC7).2.2.2.1
    rw [htp, hfp] at h
    rw [h]
    norm_num
  have hcond :
      (lintMetricsOf exC7).fp_rate < 10 ∧ 5 ≤ (lintMetricsOf exC7).total := by
    rw [hrate, htotal]
    norm_num
  have heval : calculate_metrics exC7 = [("r", lintMetricsOf exC7)] := rfl
  refine ⟨?_, by rw [htp, hfp], by rw [htp, hfp]; norm_num⟩
  rw [heval]
  simp only [promotable, List.filter_cons, decide_eq_true hcond]
  simp

theorem sum_countP_groupByLint (pred : Finding → Bool) (fs : List Finding) :
    valsSum (fun l => l.countP pred) (groupByLint fs) = fs.countP pred := by
  suffices h : ∀ m : List (String × List Finding),
      valsSum (fun l => l.countP pred)
          (fs.foldl (fun m f => upsert [] (fun l => l ++ [f]) m f.lint) m) =
        valsSum (fun l => l.countP pred) m + fs.countP pred by
    simpa [groupByLint, valsSum] using h []
  induction fs with
  | nil =>
    intro m
    simp [valsSum]
  | cons f rest ih =>
    intro m
    rw [List.foldl_cons, ih]
    have h := valsSum_upsert (fun l => l.countP pred) []
      (fun l => l ++ [f]) m f.lint rfl
    have h2 : List.countP pred (lookupD m f.lint [] ++ [f]) =
        List.countP pred (lookupD m f.lint []) +
          (if pred f then 1 else 0) := by
      rw [List.countP_append]
      simp [List.countP_cons]
    simp only at h
    rw [h2] at h
    rw [List.countP_cons]
    omega

theorem total_tp_eq (fs : List Finding) :
    ((calculate_metrics fs).map (fun p => p.2.tp)).sum =
      fs.countP (fun f => f.classification == "TP") := by
  have h1 : ((calculate_metrics fs).map (fun p => p.2.tp)).sum =
      valsSum (fun l => l.countP (fun f => f.classification == "TP"))
        (groupByLint fs) := by
    simp [calculate_metrics, valsSum, List.map_map]
    rfl
  rw [h1, sum_countP_groupByLint]

theorem total_fp_eq (fs : List Finding) :
    ((calculate_metrics fs).map (fun p => p.2.fp)).sum =
      fs.countP (fun f => f.classification == "FP") := by
  have h1 : ((calculate_metrics fs).map (fun p => p.2.fp)).sum =
      valsSum (fun l => l.countP (fun f => f.classification == "FP"))
        (groupByLint fs) := by
    simp [calculate_metrics, valsSum, List.map_map]
    rfl
  rw [h1, sum_countP_groupByLint]

/-- C10.  As invoked by `main` (metrics computed from the same data),
`generate_report` raises `ZeroDivisionError` on every dataset whose TP
and FP counts are both zero (the overall-precision division has no zero
guard); raises `TypeError` on every dataset with at least one finding
classified FP (the false-positive section slices a set of rationales);
and completes exactly on datasets with at least one TP and no FPs. -/
theorem generate_report_failure_modes (fs : List Finding) :
    (fs.countP (fun f => f.classification == "TP") = 0 →
      fs.countP (fun f => f.classification == "FP") = 0 →
      generate_report fs (calculate_metrics fs) =
        Except.error PyError.zeroDivisionError) ∧
    (fs.countP (fun f => f.classification == "FP") ≠ 0 →
      generate_report fs (calculate_metrics fs) =
        Except.error PyError.typeError) ∧
    (generate_report fs (calculate_metrics fs) = Except.ok () ↔
      (fs.countP (fun f => f.classification == "TP") ≠ 0 ∧
        fs.countP (fun f => f.classification == "FP") = 0)) := by
  have hany : (fs.any (fun f => f.classification == "FP")) =
      !(fs.countP (fun f => f.classification == "FP") == 0) := by
    by_cases h : fs.countP (fun f => f.classification == "FP") = 0
    · rw [h]
      simp only [beq_self_eq_true, Bool.not_true]
      rw [List.any_eq_false]
      intro f hf
      have := List.countP_eq_zero.mp h f hf
      simpa using this
    · have hpos : 0 < fs.countP (fun f => f.classification == "FP") :=
        Nat.pos_iff_ne_zero.mpr h
      obtain ⟨f, hf, hpf⟩ := List.countP_pos_iff.mp hpos
      have : fs.any (fun f => f.classification == "FP") = true :=
        List.any_eq_true.mpr ⟨f, hf, hpf⟩
      rw [this]
      simp [h]
  have hrep : generate_report fs (calculate_metrics fs) =
      (if fs.countP (fun f => f.classification == "TP") +
          fs.countP (fun f => f.classification == "FP") = 0 then
        Except.error PyError.zeroDivisionError
      else if fs.any (fun f => f.classification == "FP") then
        Except.error PyError.typeError
      else Except.ok ()) := by
    simp only [generate_report, total_tp_eq, total_fp_eq]
  refine ⟨?_, ?_, ?_⟩
  · intro hT hF
    rw [hrep, if_pos (by omega)]
  · intro hF
    rw [hrep, if_neg (by omega)]
    rw [if_pos (by rw [hany]; simpa using hF)]
  · rw [hrep]
    by_cases hF : fs.countP (fun f => f.classification == "FP") = 0
    · by_cases hT : fs.countP (fun f => f.classification == "TP") = 0
      · rw [if_pos (by omega)]
        constructor
        · intro h
          cases h
        · rintro ⟨h1, _⟩
          exact absurd hT h1
      · rw [if_neg (by omega)]
        rw [if_neg (by rw [hany]; simp [hF])]
        constructor
        · intro _
          exact ⟨hT, hF⟩
        · intro _
          rfl
    · rw [if_neg (by omega)]
      rw [if_pos (by rw [hany]; simpa using hF)]
      constructor
      · intro h
        cases h
      · rintro ⟨_, h2⟩
        exact absurd h2 hF

/-- A dataset with a single TP finding: the only shape on which
`generate_report` completes. -/
def exC10 : List Finding := [⟨"r", "p", "f", 1, none, "m", "w", "TP"⟩]

theorem generate_report_failure_modes_witness :
    (exC10.countP (fun f => f.classification == "TP") ≠ 0 ∧
      exC10.countP (fun f => f.classification == "FP") = 0) ∧
    generate_report exC10 (calculate_metrics exC10) = Except.ok () :=
  ⟨⟨by decide, by decide⟩,
    (generate_report_failure_modes exC10).2.2.mpr ⟨by decide, by decide⟩⟩

end Metrics

namespace AnalyzeFP

theorem calculate_fp_rate_eq (s : LintStats) :
    calculate_fp_rate s =
      (if s.confirmed + s.fp + s.wont_fix = 0 then 0
        else ((s.fp : Rat) /
          ((s.confirmed + s.fp + s.wont_fix : Nat) : Rat)) * 100) := rfl

theorem bumpStats_fields (st : String) (s : LintStats) :
    (bumpStats st s).total = s.total + 1 ∧
    (bumpStats st s).confirmed =
      s.confirmed + (if st == "confirmed" then 1 else 0) ∧
    (bumpStats st s).fp =
      s.fp + (if st == "false_positive" then 1 else 0) ∧
    (bumpStats st s).wont_fix =
      s.wont_fix + (if st == "wont_fix" then 1 else 0) := by
  by_cases h1 : st = "confirmed"
  · subst h1
    simp [bumpStats]
  · by_cases h2 : st = "false_positive"
    · subst h2
      simp [bumpStats]
    · by_cases h3 : st = "wont_fix"
      · subst h3
        simp [bumpStats]
      · simp [bumpStats, h1, h2, h3]

theorem bumpStats_fold_fields (l : List TriageFinding) :
    ∀ s : LintStats,
      (l.foldl (fun s f => bumpStats (statusKey f) s) s).total =
          s.total + l.length ∧
      (l.foldl (fun s f => bumpStats (statusKey f) s) s).confirmed =
          s.confirmed + l.countP (fun f => statusKey f == "confirmed") ∧
      (l.foldl (fun s f => bumpStats (statusKey f) s) s).fp =
          s.fp + l.countP (fun f => statusKey f == "false_positive") ∧
      (l.foldl (fun s f => bumpStats (statusKey f) s) s).wont_fix =
          s.wont_fix + l.countP (fun f => statusKey f == "wont_fix") := by
  induction l with
  | nil =>
    intro s
    simp
  | cons f rest ih =>
    intro s
    obtain ⟨ht, hc, hf, hw⟩ := ih (bumpStats (statusKey f) s)
    obtain ⟨bt, bc, bf, bw⟩ := bumpStats_fields (statusKey f) s
    rw [List.foldl_cons]
    refine ⟨?_, ?_, ?_, ?_⟩
    · rw [ht, bt]
      simp only [List.length_cons]
      omega
    · rw [hc, bc, List.countP_cons]
      omega
    · rw [hf, bf, List.countP_cons]
      omega
    · rw [hw, bw, List.countP_cons]
      omega

theorem byLintStats_general (db : List TriageFinding) :
    ∀ (m : List (String × LintStats)) (k : String),
      lookupD
          (db.foldl
            (fun m f => upsert zeroStats (bumpStats (statusKey f)) m (lintKey f))
            m)
          k zeroStats =
        (db.filter (fun f => lintKey f == k)).foldl
          (fun s f => bumpStats (statusKey f) s) (lookupD m k zeroStats) := by
  induction db with
  | nil =>
    intro m k
    simp
  | cons f rest ih =>
    intro m k
    rw [List.foldl_cons, ih]
    rw [lookupD_upsert zeroStats (bumpStats (statusKey f)) m (lintKey f) k
      zeroStats]
    by_cases hk : lintKey f = k
    · subst hk
      simp [List.filter_cons]
    · simp [List.filter_cons, hk]

theorem nodupKeys_byLintStats (db : List TriageFinding) :
    (keysOf (byLintStats db)).Nodup := by
  suffices h : ∀ m : List (String × LintStats), (keysOf m).Nodup →
      (keysOf
        (db.foldl
          (fun m f => upsert zeroStats (bumpStats (statusKey f)) m (lintKey f))
          m)).Nodup by
    exact h [] (by simp [keysOf])
  induction db with
  | nil => exact fun m hm => hm
  | cons f rest ih =>
    intro m hm
    rw [List.foldl_cons]
    exact ih _ (nodupKeys_upsert zeroStats (bumpStats (statusKey f)) m
      (lintKey f) hm)

/-- C8 (amended).  For every rule of the triage database, the stats row
counts its findings by status, and `calculate_fp_rate` divides the
`false_positive` count by `confirmed + false_positive + wont_fix` (the
"reviewed" findings — `wont_fix` IS included in the denominator, and
only `needs_review` and unrecognized statuses are excluded), times 100,
with 0 when that denominator is 0. -/
theorem fp_rate_over_reviewed (db : List TriageFinding) (k : String)
    (s : LintStats) (h : (k, s) ∈ byLintStats db) :
    s.confirmed = (db.filter (fun f => lintKey f == k)).countP
        (fun f => statusKey f == "confirmed") ∧
    s.fp = (db.filter (fun f => lintKey f == k)).countP
        (fun f => statusKey f == "false_positive") ∧
    s.wont_fix = (db.filter (fun f => lintKey f == k)).countP
        (fun f => statusKey f == "wont_fix") ∧
    calculate_fp_rate s =
      (if s.confirmed + s.fp + s.wont_fix = 0 then 0
        else ((s.fp : Rat) /
          ((s.confirmed + s.fp + s.wont_fix : Nat) : Rat)) * 100) ∧
    0 ≤ calculate_fp_rate s ∧ calculate_fp_rate s ≤ 100 := by
  have hfind := assocFind_eq_of_mem (byLintStats db) k s
    (nodupKeys_byLintStats db) h
  have hl : lookupD (byLintStats db) k zeroStats = s := by
    simp [lookupD, hfind]
  have hg : lookupD (byLintStats db) k zeroStats =
      (db.filter (fun f => lintKey f == k)).foldl
        (fun s f => bumpStats (statusKey f) s)
        (lookupD [] k zeroStats) :=
    byLintStats_general db [] k
  rw [hl] at hg
  have hz : lookupD ([] : List (String × LintStats)) k zeroStats =
      zeroStats := rfl
  rw [hz] at hg
  obtain ⟨_, hc, hf, hw⟩ :=
    bumpStats_fold_fields (db.filter (fun f => lintKey f == k)) zeroStats
  rw [← hg] at hc hf hw
  have hc' : s.confirmed = (db.filter (fun f => lintKey f == k)).countP
      (fun f => statusKey f == "confirmed") := by
    rw [hc]
    simp [zeroStats]
  have hf' : s.fp = (db.filter (fun f => lintKey f == k)).countP
      (fun f => statusKey f == "false_positive") := by
    rw [hf]
    simp [zeroStats]
  have hw' : s.wont_fix = (db.filter (fun f => lintKey f == k)).countP
      (fun f => statusKey f == "wont_fix") := by
    rw [hw]
    simp [zeroStats]
  refine ⟨hc', hf', hw', calculate_fp_rate_eq s, ?_, ?_⟩
  · rw [calculate_fp_rate_eq]
    split
    · exact le_refl 0
    · exact Metrics.ratio_nonneg _ _
  · rw [calculate_fp_rate_eq]
    split
    · norm_num
    · rename_i hne
      exact Metrics.ratio_le_100 _ _ (by omega) (by omega)

/-- A two-finding database for rule `r`: one `false_positive`, one
`wont_fix`. -/
def exC8 : List TriageFinding :=
  [⟨some "false_positive", some "r", none, none, none⟩,
   ⟨some "wont_fix", some "r", none, none, none⟩]

/-- C8 (counterexample).  With one FP and one wont-fix finding the code
computes a 50 percent rate (`1/2·100`), not the 100 percent
(`1/(0+1)·100`) the claim's formula — which excludes `wont_fix` from the
denominator — would give. -/
theorem fp_rate_counts_wont_fix :
    byLintStats exC8 = [("r", ⟨2, 0, 1, 1, 0⟩)] ∧
    calculate_fp_rate ⟨2, 0, 1, 1, 0⟩ = 50 ∧
    ((1 : Rat) / (((0 : Nat) + (1 : Nat) : Nat) : Rat)) * 100 = 100 ∧
    (50 : Rat) ≠ 100 := by
  refine ⟨by decide, ?_, by norm_num, by norm_num⟩
  rw [calculate_fp_rate_eq]
  norm_num

theorem fp_rate_over_reviewed_witness :
    (("r", (⟨2, 0, 1, 1, 0⟩ : LintStats)) ∈ byLintStats exC8) ∧
    (⟨2, 0, 1, 1, 0⟩ : LintStats).fp =
      (exC8.filter (fun f => lintKey f == "r")).countP
        (fun f => statusKey f == "false_positive") ∧
    0 ≤ calculate_fp_rate ⟨2, 0, 1, 1, 0⟩ :=
  ⟨by decide,
    (fp_rate_over_reviewed exC8 "r" ⟨2, 0, 1, 1, 0⟩ (by decide)).2.1,
    (fp_rate_over_reviewed exC8 "r" ⟨2, 0, 1, 1, 0⟩ (by decide)).2.2.2.2.1⟩

end AnalyzeFP

end MoveClippy
